import Mathlib

/-!
Verification of the paywall backend actor (Motoko, `part_003`).

The actor's state, pure helpers and the two payment entry points are shallowly
embedded: Motoko `Nat` becomes Lean `Nat`, `Int` becomes `Int`, `Blob`s and
`Principal`s become byte lists (`List Nat`), `HashMap`s become association
lists with replace-on-put semantics, and the asynchronous external calls
(ledger balance query, ledger transfers, cycles-minting notifications) are
driven by an explicit environment of call outcomes.  A `Debug.trap` aborts the
whole message and rolls every state change of that message back, so a trapping
call is modelled as `Option`/identity on the state.
-/

namespace Paywall

/-- Byte blobs (Motoko `Blob`) are lists of byte values. -/
abbrev Blob := List Nat

/-- Principals are modelled by their byte encoding (`Principal.toBlob`). -/
abbrev Principal := List Nat

/-- Association-list lookup, modelling `HashMap.get`. -/
def lookupAssoc {K V : Type} [DecidableEq K] : List (K × V) → K → Option V
  | [], _ => none
  | (k', v') :: rest, k => if k' = k then some v' else lookupAssoc rest k

/-- Association-list insert-or-replace, modelling `HashMap.put`. -/
def putAssoc {K V : Type} [DecidableEq K] : List (K × V) → K → V → List (K × V)
  | [], k, v => [(k, v)]
  | (k', v') :: rest, k, v =>
    if k' = k then (k, v) :: rest else (k', v') :: putAssoc rest k v

/-- Rebuilding a map from its serialized entries by repeated `put`, as
`postupgrade` does. -/
def fromEntries {K V : Type} [DecidableEq K] (l : List (K × V)) : List (K × V) :=
  l.foldl (fun acc e => putAssoc acc e.1 e.2) []

/-- One payment destination (`type Destination` in the actor). -/
structure Destination where
  destination : Principal
  percentage : Nat
  convertToCycles : Bool
deriving DecidableEq

/-- A stored paywall configuration (`type PaywallConfig`). -/
structure PaywallConfig where
  price_e8s : Nat
  target_canister : Principal
  session_duration_ns : Nat
  destinations : List Destination
deriving DecidableEq

/-- A partial update to a configuration (`type PaywallUpdate`). -/
structure PaywallUpdate where
  price_e8s : Option Nat
  target_canister : Option Principal
  session_duration_ns : Option Nat
  destinations : Option (List Destination)
deriving DecidableEq

/-- The nested access-record store `paidStatuses`:
owner principal to (paywall id to expiry timestamp in ns). -/
abbrev PaidStore := List (Principal × List (String × Int))

/-- The actor's in-memory state: the three hash maps, the id counter and the
salt (`paywallConfigs`, `paidStatuses`, `ownedPaywalls`, `nextPaywallId`,
`salt`). -/
structure RuntimeState where
  paywallConfigs : List (String × PaywallConfig)
  paidStatuses : PaidStore
  ownedPaywalls : List (Principal × List String)
  nextPaywallId : Nat
  salt : List Nat
deriving DecidableEq

/-- The stable variables written by `preupgrade` and read by `postupgrade`. -/
structure StableState where
  paywallConfigEntries : List (String × PaywallConfig)
  paidStatusEntries : List (Principal × List (String × Int))
  ownedPaywallsEntries : List (Principal × List String)
  nextPaywallId : Nat
  salt : List Nat
deriving DecidableEq

/-- `system func preupgrade`: serialize each hash map into its stable entry
array (in the association-list model this is the identity on each map). -/
def preupgrade (rt : RuntimeState) : StableState :=
  ⟨rt.paywallConfigs, rt.paidStatuses, rt.ownedPaywalls, rt.nextPaywallId, rt.salt⟩

/-- `system func postupgrade`: rebuild each hash map by `put`ting every
serialized entry into a fresh map; the inner per-user expiry maps of
`paidStatuses` are rebuilt the same way. -/
def postupgrade (ss : StableState) : RuntimeState :=
  ⟨fromEntries ss.paywallConfigEntries,
   ss.paidStatusEntries.foldl (fun acc e => putAssoc acc e.1 (fromEntries e.2)) [],
   fromEntries ss.ownedPaywallsEntries,
   ss.nextPaywallId,
   ss.salt⟩

/-- The fixed ledger transfer fee constant `let ledgerFee : Nat = 10_000`. -/
def ledgerFee : Nat := 10000

/-- `calculateFee`: `Nat.max(price_e8s / 100, ledgerFee)`. -/
def calculateFee (price_e8s : Nat) : Nat :=
  Nat.max (price_e8s / 100) ledgerFee

/-- The minimum paywall fee the release fee-check tooling
(`check-fees` script) and the frontend demand: `paywallMinFeeE8s = 100_000`
e8s (0.001 ICP).  The backend has no such constant; this definition follows
the spec's words so the two fee formulas can be compared. -/
def paywallMinFeeE8s : Nat := 100000

/-- The fee formula the spec and the release tooling state:
`max(price / 100, minFee)` with `minFee = 100_000`.  Follows the spec's
words, for comparison with `calculateFee` above. -/
def specCalculateFee (price_e8s : Nat) : Nat :=
  Nat.max (price_e8s / 100) paywallMinFeeE8s

/-- Running percentage sum of a destination list, as the `for` loop in
`validateDestinations` accumulates it. -/
def percentSum (destinations : List Destination) : Nat :=
  destinations.foldl (fun s d => s + d.percentage) 0

/-- `validateDestinations` as a boolean: the source traps ("fails") when the
list is empty, has more than 3 entries, or the percentages do not sum to
exactly 100; `true` means it returns normally. -/
def validateDestinations (destinations : List Destination) : Bool :=
  if destinations.length = 0 then false
  else if 3 < destinations.length then false
  else decide (percentSum destinations = 100)

/-- The split loop of `payFromBalance`/`verifyPayment`, amounts only:
`amount := userAmount * percentage / 100`, and at the last index
`amount += remaining - amount`; `remaining` decreases by each amount. -/
def splitGo (net : Nat) : List Nat → Nat → Nat → Nat → List Nat
  | [], _, _, _ => []
  | p :: rest, index, lastIndex, remaining =>
    let a0 := net * p / 100
    let amount := if index = lastIndex then a0 + (remaining - a0) else a0
    amount :: splitGo net rest (index + 1) lastIndex (remaining - amount)

/-- The per-destination split amounts computed by the payment loop for a net
amount and a percentage list (spec name `splitNet`). -/
def splitNet (net : Nat) (ps : List Nat) : List Nat :=
  splitGo net ps 0 (ps.length - 1) net

/-- `requiredBalance` as computed in `payFromBalance` and `verifyPayment`:
`price + ledgerFee * (number of destinations + 1)`. -/
def requiredBalance (config : PaywallConfig) : Nat :=
  config.price_e8s + ledgerFee * (config.destinations.length + 1)

/-- `isCanister`: a principal is canister-shaped iff its blob is 10 bytes. -/
def isCanister (destination : Principal) : Bool :=
  decide (destination.length = 10)

/-- `buildMintSubaccount`: `[size] ++ principal bytes ++ zero padding` to 32
bytes, or `null` when the principal exceeds 31 bytes. -/
def buildMintSubaccount (destination : Principal) : Option Blob :=
  if 31 < destination.length then none
  else some ([destination.length] ++ destination ++ List.replicate (31 - destination.length) 0)

/-- `buildTopUpSubaccount`: identical layout to the mint subaccount. -/
def buildTopUpSubaccount (destination : Principal) : Option Blob :=
  if 31 < destination.length then none
  else some ([destination.length] ++ destination ++ List.replicate (31 - destination.length) 0)

/-- The distinct error messages a payment run can produce.  Each constructor
corresponds to one `#Err(...)` text built in the source; `renderErr` below
gives the exact strings. -/
inductive PayErr where
  | invalidPaywall
  | priceTooLow
  | insufficientBalance (haveBal needBal : Nat)
  | feeTransferFailed (detail : String)
  | directTransferFailed (detail : String)
  | invalidMintSubaccount (dest : Principal)
  | mintTransferFailed (detail : String)
  | mintNotifyFailed (detail : String)
  | invalidTopUpSubaccount (dest : Principal)
  | topUpTransferFailed (detail : String)
  | topUpNotifyFailed (detail : String)
deriving DecidableEq

/-- The exact `Text` each error renders to in the source (`debug_show err`
details abstracted as the carried string). -/
def renderErr : PayErr → String
  | .invalidPaywall => "Invalid paywall ID"
  | .priceTooLow => "Paywall price is too low to cover the fee."
  | .insufficientBalance h n =>
      "Insufficient balance: have " ++ toString h ++ ", need " ++ toString n
  | .feeTransferFailed d => "Fee transfer failed: " ++ d
  | .directTransferFailed d => "Direct transfer failed: " ++ d
  | .invalidMintSubaccount p =>
      "Invalid mint subaccount for destination " ++ toString p
  | .mintTransferFailed d => "CMC mint transfer failed: " ++ d
  | .mintNotifyFailed d => "CMC mint notify failed: " ++ d
  | .invalidTopUpSubaccount p =>
      "Invalid top-up subaccount for destination " ++ toString p
  | .topUpTransferFailed d => "CMC top-up transfer failed: " ++ d
  | .topUpNotifyFailed d => "CMC top-up notify failed: " ++ d

/-- `type PaymentResult = { #Ok; #Err : Text }`, with the error text
structured. -/
inductive PaymentResult where
  | Ok
  | Err (e : PayErr)
deriving DecidableEq

/-- Outcome of the external calls one settlement leg can make: the ledger
transfer and, for conversion legs, the CMC notify call.  `none` means the
call succeeded; `some d` carries the error detail. -/
structure SettleOutcome where
  transfer : Option String
  notify : Option String
deriving DecidableEq

/-- One settlement call issued by the payment loop (`sendPayment`
invocation): the amount, the destination and the conversion flag. -/
structure SettleCall where
  amount : Nat
  dest : Principal
  convert : Bool
deriving DecidableEq

/-- Environment of one payment run: the balance the ledger reports for the
source subaccount, the outcome of the fee-leg transfer, the outcomes of the
successive settlement legs, and the current time `Time.now()`. -/
structure Env where
  balance : Nat
  feeOutcome : Option String
  payOutcomes : List SettleOutcome
  now : Int

/-- `sendFee`: legacy ledger transfer of the fee to the fixed fee account;
an error is wrapped as `"Fee transfer failed: " # ...`. -/
def sendFee (outcome : Option String) : PaymentResult :=
  match outcome with
  | some d => .Err (.feeTransferFailed d)
  | none => .Ok

/-- `sendPayment`: direct ICP transfer when `convertToCycles` is false;
otherwise a two-step CMC top-up (canister-shaped destination) or cycles-mint
(other destinations), each wrapping its own failure text. -/
def sendPayment (amount : Nat) (dest : Principal) (convertToCycles : Bool)
    (o : SettleOutcome) : PaymentResult :=
  if convertToCycles = false then
    match o.transfer with
    | some d => .Err (.directTransferFailed d)
    | none => .Ok
  else if isCanister dest then
    match buildTopUpSubaccount dest with
    | none => .Err (.invalidTopUpSubaccount dest)
    | some _ =>
      match o.transfer with
      | some d => .Err (.topUpTransferFailed d)
      | none =>
        match o.notify with
        | some d => .Err (.topUpNotifyFailed d)
        | none => .Ok
  else
    match buildMintSubaccount dest with
    | none => .Err (.invalidMintSubaccount dest)
    | some _ =>
      match o.transfer with
      | some d => .Err (.mintTransferFailed d)
      | none =>
        match o.notify with
        | some d => .Err (.mintNotifyFailed d)
        | none => .Ok

/-- The settlement `for` loop of `payFromBalance`/`verifyPayment`: computes
each destination's amount exactly as `splitGo` does, issues a `sendPayment`
call only when the amount is positive (consuming the next outcome from the
environment), and stops at the first failure.  Returns the result and the
list of settlement calls actually issued. -/
def settleLoop (net : Nat) : List Destination → Nat → Nat → Nat → List SettleOutcome →
    PaymentResult × List SettleCall
  | [], _, _, _, _ => (.Ok, [])
  | d :: rest, index, lastIndex, remaining, oracle =>
    let a0 := net * d.percentage / 100
    let amount := if index = lastIndex then a0 + (remaining - a0) else a0
    if 0 < amount then
      match sendPayment amount d.destination d.convertToCycles (oracle.headD ⟨none, none⟩) with
      | .Err e => (.Err e, [⟨amount, d.destination, d.convertToCycles⟩])
      | .Ok =>
        let next := settleLoop net rest (index + 1) lastIndex (remaining - amount) oracle.tail
        (next.1, ⟨amount, d.destination, d.convertToCycles⟩ :: next.2)
    else settleLoop net rest (index + 1) lastIndex (remaining - amount) oracle

/-- Look up the stored expiry for `(user, paywallId)` in the nested
`paidStatuses` store. -/
def getExpiry (paid : PaidStore) (user : Principal) (paywallId : String) : Option Int :=
  (lookupAssoc paid user).bind fun userMap => lookupAssoc userMap paywallId

/-- Write the expiry for `(user, paywallId)`: reuse the user's expiry map or
create it, then `put` the paywall entry — the net effect of the tail of a
successful payment run. -/
def putExpiry (paid : PaidStore) (user : Principal) (paywallId : String) (expiry : Int) :
    PaidStore :=
  putAssoc paid user (putAssoc ((lookupAssoc paid user).getD []) paywallId expiry)

/-- Result of one `payFromBalance`/`verifyPayment` run: the returned
`PaymentResult`, whether the fee-leg transfer was issued, the settlement
calls issued, and the resulting `paidStatuses` store. -/
structure RunResult where
  result : PaymentResult
  feeIssued : Bool
  calls : List SettleCall
  paid : PaidStore
deriving DecidableEq

/-- `payFromBalance`: resolve the config, check `price < fee`, check the
required balance, transfer the fee, settle each destination in order, and on
full success write the access record with expiry `now + session_duration_ns`. -/
def payFromBalance (st : RuntimeState) (env : Env) (caller : Principal)
    (paywallId : String) : RunResult :=
  match lookupAssoc st.paywallConfigs paywallId with
  | none => ⟨.Err .invalidPaywall, false, [], st.paidStatuses⟩
  | some config =>
    if config.price_e8s < calculateFee config.price_e8s then
      ⟨.Err .priceTooLow, false, [], st.paidStatuses⟩
    else if env.balance < requiredBalance config then
      ⟨.Err (.insufficientBalance env.balance (requiredBalance config)), false, [], st.paidStatuses⟩
    else
      match sendFee env.feeOutcome with
      | .Err e => ⟨.Err e, true, [], st.paidStatuses⟩
      | .Ok =>
        match settleLoop (config.price_e8s - calculateFee config.price_e8s)
            config.destinations 0 (config.destinations.length - 1)
            (config.price_e8s - calculateFee config.price_e8s) env.payOutcomes with
        | (.Err e, calls) => ⟨.Err e, true, calls, st.paidStatuses⟩
        | (.Ok, calls) =>
          ⟨.Ok, true, calls,
           putExpiry st.paidStatuses caller paywallId
             (env.now + (config.session_duration_ns : Int))⟩

/-- `verifyPayment`: identical orchestration to `payFromBalance`; only the
source subaccount derivation (reflected here in the environment) differs. -/
def verifyPayment (st : RuntimeState) (env : Env) (caller : Principal)
    (paywallId : String) : RunResult :=
  match lookupAssoc st.paywallConfigs paywallId with
  | none => ⟨.Err .invalidPaywall, false, [], st.paidStatuses⟩
  | some config =>
    if config.price_e8s < calculateFee config.price_e8s then
      ⟨.Err .priceTooLow, false, [], st.paidStatuses⟩
    else if env.balance < requiredBalance config then
      ⟨.Err (.insufficientBalance env.balance (requiredBalance config)), false, [], st.paidStatuses⟩
    else
      match sendFee env.feeOutcome with
      | .Err e => ⟨.Err e, true, [], st.paidStatuses⟩
      | .Ok =>
        match settleLoop (config.price_e8s - calculateFee config.price_e8s)
            config.destinations 0 (config.destinations.length - 1)
            (config.price_e8s - calculateFee config.price_e8s) env.payOutcomes with
        | (.Err e, calls) => ⟨.Err e, true, calls, st.paidStatuses⟩
        | (.Ok, calls) =>
          ⟨.Ok, true, calls,
           putExpiry st.paidStatuses caller paywallId
             (env.now + (config.session_duration_ns : Int))⟩

/-- `hasAccess` (a query, hence pure): true iff a stored expiry exists for
`(user, paywallId)` and it is strictly greater than the current time. -/
def hasAccess (paid : PaidStore) (user : Principal) (paywallId : String) (now : Int) : Bool :=
  match lookupAssoc paid user with
  | none => false
  | some userMap =>
    match lookupAssoc userMap paywallId with
    | none => false
    | some expiry => decide (now < expiry)

/-- Merge the provided update fields over an existing config (the `switch`
ladder in `updatePaywall`), with the destination list already resolved. -/
def mergeConfig (config : PaywallConfig) (u : PaywallUpdate) (ds : List Destination) :
    PaywallConfig :=
  { price_e8s := u.price_e8s.getD config.price_e8s
    target_canister := u.target_canister.getD config.target_canister
    session_duration_ns := u.session_duration_ns.getD config.session_duration_ns
    destinations := ds }

/-- `updatePaywall`: silently returns (state unchanged) when the id is
unknown or the caller's ownership list does not contain the id; otherwise
merges the provided fields, re-validating destinations when they are among
them (an invalid destination list traps, rolling the message back). -/
def updatePaywall (st : RuntimeState) (caller : Principal) (id : String)
    (u : PaywallUpdate) : RuntimeState :=
  match lookupAssoc st.paywallConfigs id with
  | none => st
  | some config =>
    match lookupAssoc st.ownedPaywalls caller with
    | none => st
    | some ownerIds =>
      if id ∈ ownerIds then
        match u.destinations with
        | none =>
          { st with paywallConfigs :=
              putAssoc st.paywallConfigs id (mergeConfig config u config.destinations) }
        | some ds =>
          if validateDestinations ds then
            { st with paywallConfigs :=
                putAssoc st.paywallConfigs id (mergeConfig config u ds) }
          else st
      else st

/-- `createPaywall`: allocate the id `"pw-" # nextPaywallId`, validate the
destinations (`none` models the trap, which rolls back the already-performed
counter increment), store the config and append the id to the caller's
ownership list. -/
def createPaywall (st : RuntimeState) (caller : Principal) (config : PaywallConfig) :
    Option (String × RuntimeState) :=
  if validateDestinations config.destinations then
    some ("pw-" ++ toString st.nextPaywallId,
      { st with
        nextPaywallId := st.nextPaywallId + 1
        paywallConfigs :=
          putAssoc st.paywallConfigs ("pw-" ++ toString st.nextPaywallId) config
        ownedPaywalls :=
          putAssoc st.ownedPaywalls caller
            (((lookupAssoc st.ownedPaywalls caller).getD []) ++
              ["pw-" ++ toString st.nextPaywallId]) })
  else none

/-- The actor state after a `createPaywall` call: unchanged when the call
trapped (Motoko rolls back all state changes of a trapped message). -/
def createPaywallState (st : RuntimeState) (caller : Principal) (config : PaywallConfig) :
    RuntimeState :=
  match createPaywall st caller config with
  | none => st
  | some r => r.2

/-- UTF-8 bytes of the fixed purpose string `"wallet"`. -/
def walletBytes : List Nat := [119, 97, 108, 108, 101, 116]

/-- The byte-wise folding loop shared by `deriveSubaccount` and
`deriveUserSubaccount`: each payload byte is added modulo 256 into slot
`index % 32` of a 32-byte output buffer (modelled as a function from slot to
value). -/
def foldInto : (Nat → Nat) → Nat → List Nat → (Nat → Nat)
  | out, _, [] => out
  | out, i, b :: rest =>
    foldInto (fun s => if s = i % 32 then (out (i % 32) + b) % 256 else out s) (i + 1) rest

/-- The 32-byte buffer produced by folding a payload, read out as a list. -/
def deriveBytes (payload : List Nat) : List Nat :=
  (List.range 32).map (foldInto (fun _ => 0) 0 payload)

/-- `deriveSubaccount(paywallId, user)`: fold `salt ∥ utf8(paywallId) ∥
principal bytes` into 32 bytes. -/
def deriveSubaccount (salt : List Nat) (paywallId : List Nat) (user : Principal) : List Nat :=
  deriveBytes (salt ++ (paywallId ++ user))

/-- `deriveUserSubaccount(user)`: fold `salt ∥ utf8("wallet") ∥ principal
bytes` into 32 bytes. -/
def deriveUserSubaccount (salt : List Nat) (user : Principal) : List Nat :=
  deriveBytes (salt ++ (walletBytes ++ user))

/-- Sum of the payload bytes landing in slot `s` when the payload starts at
running index `i` — the per-slot specification of `foldInto`. -/
def slotSumFrom (i s : Nat) : List Nat → Nat
  | [] => 0
  | b :: rest => (if i % 32 = s then b else 0) + slotSumFrom (i + 1) s rest

/-- Decimal digits of a natural number, most significant first (the digits
`Nat.toText` prints). -/
def decDigits : Nat → List Nat
  | n =>
    if _h : n < 10 then [n]
    else decDigits (n / 10) ++ [n % 10]
termination_by n => n
decreasing_by exact Nat.div_lt_self (by omega) (by omega)

/-- UTF-8 bytes of a generated paywall id `"pw-" # Nat.toText n`. -/
def pwIdBytes (n : Nat) : List Nat :=
  [112, 119, 45] ++ (decDigits n).map (fun b => b + 48)

/-- Sample configuration used by concrete witnesses: price 100_000 e8s, one
direct destination receiving 100 percent, session 1000 ns. -/
def sampleConfig : PaywallConfig := ⟨100000, [7], 1000, [⟨[5], 100, false⟩]⟩

/-- Sample actor state holding `sampleConfig` under id "pw-0", owned by
principal `[1]`. -/
def sampleState : RuntimeState := ⟨[("pw-0", sampleConfig)], [], [([1], ["pw-0"])], 1, [9]⟩

/-- Environment where every external call succeeds and the balance is ample
(required balance for `sampleConfig` is 120_000). -/
def sampleEnvOk : Env := ⟨200000, none, [], 0⟩

/-- Environment whose balance is exactly one unit short of the required
120_000. -/
def sampleEnvShort : Env := ⟨119999, none, [], 0⟩

/-- Environment whose balance is exactly the required 120_000. -/
def sampleEnvExact : Env := ⟨120000, none, [], 0⟩

/-- Environment where the fee-leg ledger transfer fails. -/
def sampleEnvFee : Env := ⟨200000, some "ledger down", [], 0⟩

/-- Sample configuration whose first destination has percentage 0 (a valid
list: 0 + 100 = 100), so its split amount is zero. -/
def zeroSplitConfig : PaywallConfig := ⟨100000, [7], 1000, [⟨[5], 0, false⟩, ⟨[6], 100, false⟩]⟩

/-- Sample state holding `zeroSplitConfig` under id "pw-0". -/
def zeroSplitState : RuntimeState := ⟨[("pw-0", zeroSplitConfig)], [], [], 1, []⟩

/-- Environment with balance exactly the required 130_000 for
`zeroSplitConfig` (three transfer fees are charged, one per destination plus
the fee leg, although only one settlement transfer will be issued). -/
def zeroSplitEnv : Env := ⟨130000, none, [], 0⟩

/-- The percentage loop of `validateDestinations` computes the sum of the
percentages. -/
theorem percentSum_eq (dests : List Destination) :
    percentSum dests = (dests.map (fun d => d.percentage)).sum := by
  have key : ∀ (l : List Destination) (a : Nat),
      l.foldl (fun s d => s + d.percentage) a = a + (l.map (fun d => d.percentage)).sum := by
    intro l
    induction l with
    | nil => intro a; simp
    | cons d rest ih => intro a; simp [List.foldl, ih]; omega
  simpa using key dests 0

/-- A destination list that validates has percentages summing to 100. -/
theorem validate_sum (dests : List Destination) (hv : validateDestinations dests = true) :
    percentSum dests = 100 := by
  unfold validateDestinations at hv
  split_ifs at hv
  simpa using hv

/-- A destination list that validates is nonempty. -/
theorem validate_ne_nil (dests : List Destination) (hv : validateDestinations dests = true) :
    dests ≠ [] := by
  intro h
  subst h
  simp [validateDestinations] at hv

/-- One unfolding step of the split loop on a cons cell. -/
theorem splitGo_cons (net p : Nat) (rest : List Nat) (index lastIndex remaining : Nat) :
    splitGo net (p :: rest) index lastIndex remaining =
      (if index = lastIndex then net * p / 100 + (remaining - net * p / 100)
        else net * p / 100) ::
      splitGo net rest (index + 1) lastIndex
        (remaining -
          (if index = lastIndex then net * p / 100 + (remaining - net * p / 100)
            else net * p / 100)) := rfl

/-- Sum of the split loop: as long as `net * (sum of remaining percentages)`
is at most `remaining * 100` and the list is nonempty, the amounts sum to
exactly `remaining` (the last leg absorbs the rounding remainder). -/
theorem splitGo_sum (net : Nat) :
    ∀ (ps : List Nat) (index lastIndex remaining : Nat), ps ≠ [] →
      lastIndex + 1 = index + ps.length →
      net * ps.sum ≤ remaining * 100 →
      (splitGo net ps index lastIndex remaining).sum = remaining := by
  intro ps
  induction ps with
  | nil => intro _ _ _ h _ _; exact absurd rfl h
  | cons p rest ih =>
    intro index lastIndex remaining _ hlast hbound
    rw [List.sum_cons, Nat.mul_add] at hbound
    have hdiv : net * p / 100 * 100 ≤ net * p := Nat.div_mul_le_self _ _
    cases rest with
    | nil =>
      have hidx : index = lastIndex := by simp at hlast; omega
      rw [splitGo_cons, if_pos hidx]
      simp only [splitGo, List.sum_cons, List.sum_nil]
      simp at hbound
      omega
    | cons q rest2 =>
      have hne : index ≠ lastIndex := by simp at hlast; omega
      rw [splitGo_cons]
      simp only [if_neg hne, List.sum_cons]
      rw [ih (index + 1) lastIndex (remaining - net * p / 100) (by simp)
        (by simp at hlast ⊢; omega) (by rw [Nat.sub_mul]; omega)]
      omega

/-- C1: for every destination list that passes validation and every net
amount, the per-destination split amounts computed inside `payFromBalance`
and `verifyPayment` (modelled by `splitNet`, the amounts of `settleLoop`)
sum to exactly the net amount — the zero-loss split invariant. -/
theorem C1_split_zero_loss (net : Nat) (dests : List Destination)
    (hv : validateDestinations dests = true) :
    (splitNet net (dests.map (fun d => d.percentage))).sum = net := by
  have hne : dests ≠ [] := validate_ne_nil dests hv
  have hsum : (dests.map (fun d => d.percentage)).sum = 100 := by
    rw [← percentSum_eq]; exact validate_sum dests hv
  unfold splitNet
  refine splitGo_sum net _ 0 _ net (by simpa using hne) ?_ (by rw [hsum])
  have : dests.length ≠ 0 := fun h => hne (List.length_eq_zero.mp h)
  simp [List.length_map]
  omega

/-- C1 witness: the spec's worked scenario — net 99_000_000 split over
percentages [33, 33, 34] sums back to 99_000_000. -/
theorem C1_witness :
    (splitNet 99000000
      (([⟨[1], 33, false⟩, ⟨[2], 33, false⟩, ⟨[3], 34, false⟩] :
        List Destination).map (fun d => d.percentage))).sum = 99000000 :=
  C1_split_zero_loss 99000000 _ (by decide)

/-- C2: the claim demands `calculateFee(price) = max(price / 100, 100_000)`
(the 100_000 e8s minimum the release fee-check tooling, the README and the
frontend all state), but the source computes `max(price / 100, ledgerFee)`
with `ledgerFee = 10_000`; at price 100_000 the two disagree. -/
theorem C2_fee_divergence :
    calculateFee 100000 = 10000 ∧ specCalculateFee 100000 = 100000 ∧
      calculateFee 100000 ≠ specCalculateFee 100000 := by
  refine ⟨by decide, by decide, by decide⟩

/-- C6: `updatePaywall` invoked by a caller whose ownership index does not
contain the id leaves the whole actor state unchanged and signals nothing. -/
theorem C6_update_non_owner_noop (st : RuntimeState) (caller : Principal) (id : String)
    (u : PaywallUpdate)
    (hown : id ∉ ((lookupAssoc st.ownedPaywalls caller).getD [])) :
    updatePaywall st caller id u = st := by
  unfold updatePaywall
  split
  · rfl
  · split
    · rfl
    · next ownerIds ho =>
        rw [ho] at hown
        simp only [Option.getD_some] at hown
        rw [if_neg hown]

/-- C6 witness: a concrete non-owner update is the identity on the state. -/
theorem C6_witness :
    updatePaywall
      ⟨[("pw-0", ⟨100000, [7], 1000, [⟨[5], 100, false⟩]⟩)], [], [([1], ["pw-0"])], 1, [9]⟩
      [2] "pw-0" ⟨some 5, none, none, none⟩
    = ⟨[("pw-0", ⟨100000, [7], 1000, [⟨[5], 100, false⟩]⟩)], [], [([1], ["pw-0"])], 1, [9]⟩ :=
  C6_update_non_owner_noop _ _ _ _ (by decide)

/-- C7: `createPaywall` with an invalid destination list (empty, more than
3 entries, or percentages not summing to 100) traps, so it returns no id and
the rolled-back state keeps configs, ownership index and id counter
unchanged. -/
theorem C7_create_invalid_noop (st : RuntimeState) (caller : Principal)
    (config : PaywallConfig)
    (hbad : config.destinations.length = 0 ∨ 3 < config.destinations.length ∨
      percentSum config.destinations ≠ 100) :
    createPaywall st caller config = none ∧ createPaywallState st caller config = st := by
  have hv : validateDestinations config.destinations = false := by
    unfold validateDestinations
    split_ifs with h1 h2
    · rfl
    · rfl
    · rcases hbad with h | h | h
      · exact absurd h h1
      · exact absurd h h2
      · simpa using h
  have hnone : createPaywall st caller config = none := by
    unfold createPaywall
    rw [hv]
    rfl
  exact ⟨hnone, by unfold createPaywallState; rw [hnone]⟩

/-- C7 witness: percentages summing to 99 (and, separately, to 101) store
nothing and leave the state untouched. -/
theorem C7_witness :
    (createPaywall ⟨[], [], [], 0, []⟩ [1]
        ⟨100000, [7], 1000, [⟨[5], 33, false⟩, ⟨[6], 33, false⟩, ⟨[8], 33, false⟩]⟩ = none ∧
      createPaywallState ⟨[], [], [], 0, []⟩ [1]
        ⟨100000, [7], 1000, [⟨[5], 33, false⟩, ⟨[6], 33, false⟩, ⟨[8], 33, false⟩]⟩ =
        ⟨[], [], [], 0, []⟩) ∧
    (createPaywall ⟨[], [], [], 0, []⟩ [1]
        ⟨100000, [7], 1000, [⟨[5], 34, false⟩, ⟨[6], 33, false⟩, ⟨[8], 34, false⟩]⟩ = none ∧
      createPaywallState ⟨[], [], [], 0, []⟩ [1]
        ⟨100000, [7], 1000, [⟨[5], 34, false⟩, ⟨[6], 33, false⟩, ⟨[8], 34, false⟩]⟩ =
        ⟨[], [], [], 0, []⟩) :=
  ⟨C7_create_invalid_noop _ _ _ (Or.inr (Or.inr (by decide))),
   C7_create_invalid_noop _ _ _ (Or.inr (Or.inr (by decide)))⟩

/-- Both payment entry points share the orchestration logic verbatim. -/
theorem verifyPayment_eq : verifyPayment = payFromBalance := rfl

/-- One unfolding step of the split loop with the computed amount
abstracted. -/
theorem splitGo_consA (net p : Nat) (rest : List Nat) (index lastIndex remaining A : Nat)
    (hA : A = if index = lastIndex then net * p / 100 + (remaining - net * p / 100)
      else net * p / 100) :
    splitGo net (p :: rest) index lastIndex remaining =
      A :: splitGo net rest (index + 1) lastIndex (remaining - A) := by
  subst hA; rfl

/-- One unfolding step of the settlement loop with the computed amount
abstracted. -/
theorem settleLoop_cons (net : Nat) (d : Destination) (rest : List Destination)
    (index lastIndex remaining : Nat) (oracle : List SettleOutcome) (A : Nat)
    (hA : A = if index = lastIndex then
        net * d.percentage / 100 + (remaining - net * d.percentage / 100)
      else net * d.percentage / 100) :
    settleLoop net (d :: rest) index lastIndex remaining oracle =
      if 0 < A then
        match sendPayment A d.destination d.convertToCycles (oracle.headD ⟨none, none⟩) with
        | .Err e => (.Err e, [⟨A, d.destination, d.convertToCycles⟩])
        | .Ok =>
          ((settleLoop net rest (index + 1) lastIndex (remaining - A) oracle.tail).1,
            ⟨A, d.destination, d.convertToCycles⟩ ::
              (settleLoop net rest (index + 1) lastIndex (remaining - A) oracle.tail).2)
      else settleLoop net rest (index + 1) lastIndex (remaining - A) oracle := by
  subst hA; rfl

/-- A settlement leg never produces the insufficient-balance error: its
failures are transfer, notify or subaccount errors. -/
theorem sendPayment_not_insufficient (amount : Nat) (dest : Principal) (c : Bool)
    (o : SettleOutcome) (h n : Nat) :
    sendPayment amount dest c o ≠ .Err (.insufficientBalance h n) := by
  obtain ⟨t, ntf⟩ := o
  unfold sendPayment buildTopUpSubaccount buildMintSubaccount
  split_ifs <;> cases t <;> cases ntf <;> simp

/-- The settlement loop never produces the insufficient-balance error. -/
theorem settleLoop_not_insufficient (net : Nat) :
    ∀ (ds : List Destination) (index lastIndex remaining : Nat)
      (oracle : List SettleOutcome) (h n : Nat),
      (settleLoop net ds index lastIndex remaining oracle).1 ≠
        .Err (.insufficientBalance h n) := by
  intro ds
  induction ds with
  | nil => intro index lastIndex remaining oracle h n; simp [settleLoop]
  | cons d rest ih =>
    intro index lastIndex remaining oracle h n
    obtain ⟨A, hA⟩ : ∃ A, A = (if index = lastIndex then
        net * d.percentage / 100 + (remaining - net * d.percentage / 100)
      else net * d.percentage / 100) := ⟨_, rfl⟩
    rw [settleLoop_cons net d rest index lastIndex remaining oracle A hA]
    by_cases hpos : 0 < A
    · rw [if_pos hpos]
      cases hsp : sendPayment A d.destination d.convertToCycles (oracle.headD ⟨none, none⟩) with
      | Err e =>
        intro hcon
        have h' : PaymentResult.Err e = PaymentResult.Err (.insufficientBalance h n) := hcon
        injection h' with h''
        rw [h''] at hsp
        exact sendPayment_not_insufficient _ _ _ _ _ _ hsp
      | Ok =>
        exact ih (index + 1) lastIndex (remaining - A) oracle.tail h n
    · rw [if_neg hpos]
      exact ih (index + 1) lastIndex (remaining - A) oracle h n

/-- The calls the settlement loop issues are exactly the positive split
amounts, truncated at the first failing leg: every issued call has a
positive amount, and the issued amounts are an initial segment of the
positive amounts of `splitGo`. -/
theorem settleLoop_calls (net : Nat) :
    ∀ (ds : List Destination) (index lastIndex remaining : Nat)
      (oracle : List SettleOutcome),
      (∀ c ∈ (settleLoop net ds index lastIndex remaining oracle).2, 0 < c.amount) ∧
      (settleLoop net ds index lastIndex remaining oracle).2.map (fun c => c.amount) =
        ((splitGo net (ds.map (fun d => d.percentage)) index lastIndex remaining).filter
          (fun a => decide (0 < a))).take
          (settleLoop net ds index lastIndex remaining oracle).2.length := by
  intro ds
  induction ds with
  | nil => intro index lastIndex remaining oracle; simp [settleLoop, splitGo]
  | cons d rest ih =>
    intro index lastIndex remaining oracle
    obtain ⟨A, hA⟩ : ∃ A, A = (if index = lastIndex then
        net * d.percentage / 100 + (remaining - net * d.percentage / 100)
      else net * d.percentage / 100) := ⟨_, rfl⟩
    rw [List.map_cons, settleLoop_cons net d rest index lastIndex remaining oracle A hA,
      splitGo_consA net d.percentage _ index lastIndex remaining A hA]
    by_cases hpos : 0 < A
    · rw [if_pos hpos]
      cases hsp : sendPayment A d.destination d.convertToCycles (oracle.headD ⟨none, none⟩) with
      | Err e =>
        constructor
        · intro c hc
          have hc' : c ∈ [(⟨A, d.destination, d.convertToCycles⟩ : SettleCall)] := hc
          rw [List.mem_singleton] at hc'
          rw [hc']
          exact hpos
        · show [(⟨A, d.destination, d.convertToCycles⟩ : SettleCall)].map (fun c => c.amount) = _
          simp [List.filter_cons, hpos]
      | Ok =>
        obtain ⟨ihall, ihmap⟩ := ih (index + 1) lastIndex (remaining - A) oracle.tail
        constructor
        · intro c hc
          have hc' : c = (⟨A, d.destination, d.convertToCycles⟩ : SettleCall) ∨
              c ∈ (settleLoop net rest (index + 1) lastIndex (remaining - A) oracle.tail).2 := by
            exact List.mem_cons.mp hc
          rcases hc' with hc' | hc'
          · rw [hc']; exact hpos
          · exact ihall c hc'
        · show ((⟨A, d.destination, d.convertToCycles⟩ : SettleCall) ::
              (settleLoop net rest (index + 1) lastIndex (remaining - A) oracle.tail).2).map
                (fun c => c.amount) = _
          simp only [List.map_cons, List.length_cons, List.filter_cons]
          have hdec : decide (0 < A) = true := by simpa using hpos
          rw [hdec]
          simp only [if_pos rfl, List.take_succ_cons]
          rw [ihmap]
          simp [List.take_succ_cons]
    · rw [if_neg hpos]
      obtain ⟨ihall, ihmap⟩ := ih (index + 1) lastIndex (remaining - A) oracle
      refine ⟨ihall, ?_⟩
      have hz : decide (0 < A) = false := by simpa using hpos
      simp only [List.filter_cons, hz]
      simpa using ihmap

/-- When the config exists, the price covers the fee, and the reported
balance is below the required balance, the run returns the
insufficient-balance error with no fee transfer, no settlement calls and the
access store untouched. -/
theorem payFromBalance_insufficient_eq (st : RuntimeState) (env : Env) (caller : Principal)
    (pid : String) (config : PaywallConfig)
    (hc : lookupAssoc st.paywallConfigs pid = some config)
    (hfee : calculateFee config.price_e8s ≤ config.price_e8s)
    (hbal : env.balance < requiredBalance config) :
    payFromBalance st env caller pid =
      ⟨.Err (.insufficientBalance env.balance (requiredBalance config)), false, [],
        st.paidStatuses⟩ := by
  simp only [payFromBalance, hc]
  rw [if_neg (Nat.not_lt.mpr hfee), if_pos hbal]

/-- When the reported balance reaches the required balance, the run never
returns an insufficient-balance error. -/
theorem payFromBalance_not_insufficient (st : RuntimeState) (env : Env) (caller : Principal)
    (pid : String) (config : PaywallConfig)
    (hc : lookupAssoc st.paywallConfigs pid = some config)
    (hfee : calculateFee config.price_e8s ≤ config.price_e8s)
    (hbal : ¬ env.balance < requiredBalance config) (h n : Nat) :
    (payFromBalance st env caller pid).result ≠ .Err (.insufficientBalance h n) := by
  simp only [payFromBalance, hc]
  rw [if_neg (Nat.not_lt.mpr hfee), if_neg hbal]
  cases hfo : env.feeOutcome with
  | some dd => simp [sendFee, hfo]
  | none =>
    simp only [sendFee, hfo]
    cases hsl : settleLoop (config.price_e8s - calculateFee config.price_e8s)
        config.destinations 0 (config.destinations.length - 1)
        (config.price_e8s - calculateFee config.price_e8s) env.payOutcomes with
    | mk r calls =>
      cases r with
      | Err e =>
        intro hcon
        have hval : PaymentResult.Err e = .Err (.insufficientBalance h n) := hcon
        have hr : (settleLoop (config.price_e8s - calculateFee config.price_e8s)
            config.destinations 0 (config.destinations.length - 1)
            (config.price_e8s - calculateFee config.price_e8s) env.payOutcomes).1 = .Err e := by
          rw [hsl]
        exact settleLoop_not_insufficient _ _ _ _ _ _ h n (hr.trans hval)
      | Ok => simp

/-- The access store written by a run: untouched on every error, and equal to
`putExpiry` with expiry `now + session_duration_ns` on success. -/
theorem payFromBalance_paid_spec (st : RuntimeState) (env : Env) (caller : Principal)
    (pid : String) :
    ((∃ e, (payFromBalance st env caller pid).result = .Err e) ∧
      (payFromBalance st env caller pid).paid = st.paidStatuses) ∨
    ((payFromBalance st env caller pid).result = .Ok ∧
      ∃ config, lookupAssoc st.paywallConfigs pid = some config ∧
        (payFromBalance st env caller pid).paid =
          putExpiry st.paidStatuses caller pid
            (env.now + (config.session_duration_ns : Int))) := by
  cases hc : lookupAssoc st.paywallConfigs pid with
  | none =>
    left
    exact ⟨⟨.invalidPaywall, by simp [payFromBalance, hc]⟩, by simp [payFromBalance, hc]⟩
  | some config =>
    by_cases h1 : config.price_e8s < calculateFee config.price_e8s
    · left
      exact ⟨⟨.priceTooLow, by simp [payFromBalance, hc, h1]⟩, by simp [payFromBalance, hc, h1]⟩
    · by_cases h2 : env.balance < requiredBalance config
      · left
        exact ⟨⟨.insufficientBalance env.balance (requiredBalance config),
          by simp [payFromBalance, hc, h1, h2]⟩, by simp [payFromBalance, hc, h1, h2]⟩
      · cases hfo : env.feeOutcome with
        | some dd =>
          left
          exact ⟨⟨.feeTransferFailed dd, by simp [payFromBalance, hc, h1, h2, sendFee, hfo]⟩,
            by simp [payFromBalance, hc, h1, h2, sendFee, hfo]⟩
        | none =>
          cases hsl : settleLoop (config.price_e8s - calculateFee config.price_e8s)
              config.destinations 0 (config.destinations.length - 1)
              (config.price_e8s - calculateFee config.price_e8s) env.payOutcomes with
          | mk r calls =>
            cases r with
            | Err e =>
              left
              exact ⟨⟨e, by simp [payFromBalance, hc, h1, h2, sendFee, hfo, hsl]⟩,
                by simp [payFromBalance, hc, h1, h2, sendFee, hfo, hsl]⟩
            | Ok =>
              right
              exact ⟨by simp [payFromBalance, hc, h1, h2, sendFee, hfo, hsl], config, rfl,
                by simp [payFromBalance, hc, h1, h2, sendFee, hfo, hsl]⟩

/-- The settlement calls of a run are either none (an early failure) or
exactly the calls of the settlement loop over the stored destinations. -/
theorem payFromBalance_calls_shape (st : RuntimeState) (env : Env) (caller : Principal)
    (pid : String) :
    (payFromBalance st env caller pid).calls = [] ∨
    (∃ config, lookupAssoc st.paywallConfigs pid = some config ∧
      (payFromBalance st env caller pid).calls =
        (settleLoop (config.price_e8s - calculateFee config.price_e8s) config.destinations 0
          (config.destinations.length - 1)
          (config.price_e8s - calculateFee config.price_e8s) env.payOutcomes).2) := by
  cases hc : lookupAssoc st.paywallConfigs pid with
  | none => left; simp [payFromBalance, hc]
  | some config =>
    by_cases h1 : config.price_e8s < calculateFee config.price_e8s
    · left; simp [payFromBalance, hc, h1]
    · by_cases h2 : env.balance < requiredBalance config
      · left; simp [payFromBalance, hc, h1, h2]
      · cases hfo : env.feeOutcome with
        | some dd => left; simp [payFromBalance, hc, h1, h2, sendFee, hfo]
        | none =>
          cases hsl : settleLoop (config.price_e8s - calculateFee config.price_e8s)
              config.destinations 0 (config.destinations.length - 1)
              (config.price_e8s - calculateFee config.price_e8s) env.payOutcomes with
          | mk r calls =>
            right
            refine ⟨config, rfl, ?_⟩
            cases r with
            | Err e => simp [payFromBalance, hc, h1, h2, sendFee, hfo, hsl]
            | Ok => simp [payFromBalance, hc, h1, h2, sendFee, hfo, hsl]

/-- Looking up the key just written by `putAssoc` yields the new value. -/
theorem lookupAssoc_putAssoc_self {K V : Type} [DecidableEq K] :
    ∀ (l : List (K × V)) (k : K) (v : V), lookupAssoc (putAssoc l k v) k = some v := by
  intro l k v
  induction l with
  | nil => simp [putAssoc, lookupAssoc]
  | cons kv rest ih =>
    obtain ⟨k', v'⟩ := kv
    by_cases h : k' = k
    · simp [putAssoc, lookupAssoc, h]
    · simp [putAssoc, lookupAssoc, h, ih]

/-- Reading back the expiry just written by `putExpiry`. -/
theorem getExpiry_putExpiry (paid : PaidStore) (u : Principal) (p : String) (e : Int) :
    getExpiry (putExpiry paid u p e) u p = some e := by
  unfold getExpiry putExpiry
  rw [lookupAssoc_putAssoc_self]
  simp [lookupAssoc_putAssoc_self]

/-- A stored expiry determines the `hasAccess` answer at every query time. -/
theorem hasAccess_of_getExpiry (paid : PaidStore) (u : Principal) (p : String) (e : Int)
    (h : getExpiry paid u p = some e) (q : Int) :
    hasAccess paid u p q = decide (q < e) := by
  unfold getExpiry at h
  unfold hasAccess
  cases hu : lookupAssoc paid u with
  | none => rw [hu] at h; simp at h
  | some m =>
    rw [hu] at h
    simp at h
    cases hp : lookupAssoc m p with
    | none => rw [hp] at h; simp at h
    | some e' =>
      rw [hp] at h
      have he : e' = e := by injection h
      simp [hu, hp, he]

/-- C3: with a known paywall whose price covers the fee, both entry points
fail with the insufficient-balance error — and issue no fee transfer and no
settlement call — exactly when the queried balance is strictly below
`price + ledgerFee * (destinations + 1)`; in that case the access store is
untouched, and a balance at or above the bound never yields that error. -/
theorem C3_insufficient_balance_gate (st : RuntimeState) (env : Env) (caller : Principal)
    (pid : String) (config : PaywallConfig)
    (hc : lookupAssoc st.paywallConfigs pid = some config)
    (hfee : calculateFee config.price_e8s ≤ config.price_e8s) :
    ((∃ h n, (payFromBalance st env caller pid).result = .Err (.insufficientBalance h n)) ↔
      env.balance < requiredBalance config) ∧
    (env.balance < requiredBalance config →
      payFromBalance st env caller pid =
        ⟨.Err (.insufficientBalance env.balance (requiredBalance config)), false, [],
          st.paidStatuses⟩) ∧
    ((∃ h n, (verifyPayment st env caller pid).result = .Err (.insufficientBalance h n)) ↔
      env.balance < requiredBalance config) ∧
    (env.balance < requiredBalance config →
      verifyPayment st env caller pid =
        ⟨.Err (.insufficientBalance env.balance (requiredBalance config)), false, [],
          st.paidStatuses⟩) := by
  have hiff : (∃ h n, (payFromBalance st env caller pid).result =
      .Err (.insufficientBalance h n)) ↔ env.balance < requiredBalance config := by
    constructor
    · intro ⟨h, n, hres⟩
      by_contra hbal
      exact payFromBalance_not_insufficient st env caller pid config hc hfee hbal h n hres
    · intro hbal
      exact ⟨env.balance, requiredBalance config,
        by rw [payFromBalance_insufficient_eq st env caller pid config hc hfee hbal]⟩
  refine ⟨hiff, payFromBalance_insufficient_eq st env caller pid config hc hfee, ?_, ?_⟩
  · rw [verifyPayment_eq]; exact hiff
  · rw [verifyPayment_eq]
    exact payFromBalance_insufficient_eq st env caller pid config hc hfee

/-- C3 witness: a balance one unit short of the required 120_000 fails with
the insufficient-balance error and issues no transfer; the full run record
shows the untouched store. -/
theorem C3_witness :
    payFromBalance sampleState sampleEnvShort [1] "pw-0" =
      ⟨.Err (.insufficientBalance 119999 120000), false, [], []⟩ :=
  (C3_insufficient_balance_gate sampleState sampleEnvShort [1] "pw-0" sampleConfig
    (by decide) (by decide)).2.1 (by decide)

/-- On any error the run leaves the access store unchanged. -/
theorem payFromBalance_err_paid (st : RuntimeState) (env : Env) (caller : Principal)
    (pid : String) (e : PayErr) (he : (payFromBalance st env caller pid).result = .Err e) :
    (payFromBalance st env caller pid).paid = st.paidStatuses := by
  rcases payFromBalance_paid_spec st env caller pid with ⟨_, hp⟩ | ⟨hok, _⟩
  · exact hp
  · rw [hok] at he; cases he

/-- On success the run writes the caller's expiry entry. -/
theorem payFromBalance_ok_paid (st : RuntimeState) (env : Env) (caller : Principal)
    (pid : String) (config : PaywallConfig)
    (hcfg : lookupAssoc st.paywallConfigs pid = some config)
    (hres : (payFromBalance st env caller pid).result = .Ok) :
    (payFromBalance st env caller pid).paid =
      putExpiry st.paidStatuses caller pid (env.now + (config.session_duration_ns : Int)) := by
  rcases payFromBalance_paid_spec st env caller pid with ⟨⟨e, he⟩, _⟩ | ⟨_, c, hc, hp⟩
  · rw [hres] at he; cases he
  · rw [hcfg] at hc
    injection hc with hc'
    rw [← hc'] at hp
    exact hp

/-- C4: the access-record store is written only by a fully successful run:
on any error both entry points leave `paidStatuses` unchanged, and on
success they overwrite the caller's entry with expiry
`now + session_duration_ns`. -/
theorem C4_access_write_only_on_success (st : RuntimeState) (env : Env) (caller : Principal)
    (pid : String) :
    (∀ e, (payFromBalance st env caller pid).result = .Err e →
      (payFromBalance st env caller pid).paid = st.paidStatuses) ∧
    (∀ config, lookupAssoc st.paywallConfigs pid = some config →
      validateDestinations config.destinations = true →
      (payFromBalance st env caller pid).result = .Ok →
      (payFromBalance st env caller pid).paid =
        putExpiry st.paidStatuses caller pid (env.now + (config.session_duration_ns : Int))) ∧
    (∀ e, (verifyPayment st env caller pid).result = .Err e →
      (verifyPayment st env caller pid).paid = st.paidStatuses) ∧
    (∀ config, lookupAssoc st.paywallConfigs pid = some config →
      validateDestinations config.destinations = true →
      (verifyPayment st env caller pid).result = .Ok →
      (verifyPayment st env caller pid).paid =
        putExpiry st.paidStatuses caller pid (env.now + (config.session_duration_ns : Int))) := by
  refine ⟨payFromBalance_err_paid st env caller pid,
    fun config hcfg _ hres => payFromBalance_ok_paid st env caller pid config hcfg hres,
    ?_, ?_⟩
  · rw [verifyPayment_eq]; exact payFromBalance_err_paid st env caller pid
  · rw [verifyPayment_eq]
    exact fun config hcfg _ hres => payFromBalance_ok_paid st env caller pid config hcfg hres

/-- C4 witness: a failing fee transfer leaves the store untouched, and a
fully successful run writes expiry `0 + 1000` for the caller. -/
theorem C4_witness :
    (payFromBalance sampleState sampleEnvFee [1] "pw-0").paid = [] ∧
    (payFromBalance sampleState sampleEnvOk [1] "pw-0").paid =
      putExpiry [] [1] "pw-0" (0 + (1000 : Int)) :=
  ⟨(C4_access_write_only_on_success sampleState sampleEnvFee [1] "pw-0").1
      (.feeTransferFailed "ledger down") (by decide),
   (C4_access_write_only_on_success sampleState sampleEnvOk [1] "pw-0").2.1
      sampleConfig (by decide) (by decide) (by decide)⟩

/-- C5: `hasAccess` is true exactly when a stored expiry exists and is
strictly greater than the query time (the query mutates nothing, being a
pure read of the store); consequently, after a successful payment at time
`t` with session duration `d`, it answers true precisely for query times
strictly below `t + d`. -/
theorem C5_hasAccess_spec :
    (∀ (paid : PaidStore) (u : Principal) (p : String) (now : Int),
      hasAccess paid u p now = true ↔
        ∃ e, getExpiry paid u p = some e ∧ now < e) ∧
    (∀ (st : RuntimeState) (env : Env) (caller : Principal) (pid : String)
      (config : PaywallConfig), lookupAssoc st.paywallConfigs pid = some config →
      validateDestinations config.destinations = true →
      (payFromBalance st env caller pid).result = .Ok →
      ∀ q : Int, hasAccess (payFromBalance st env caller pid).paid caller pid q =
        decide (q < env.now + (config.session_duration_ns : Int))) := by
  constructor
  · intro paid u p now
    unfold hasAccess getExpiry
    cases hu : lookupAssoc paid u with
    | none => simp [hu]
    | some m =>
      cases hp : lookupAssoc m p with
      | none => simp [hu, hp]
      | some e => simp [hu, hp]
  · intro st env caller pid config hc _hv hres q
    rw [payFromBalance_ok_paid st env caller pid config hc hres]
    exact hasAccess_of_getExpiry _ _ _ _ (getExpiry_putExpiry _ _ _ _) q

/-- C5 witness: after the concrete successful run at time 0 with session
1000 ns, access holds at time 0 and at time 999 and is gone at time 1000. -/
theorem C5_witness :
    hasAccess (payFromBalance sampleState sampleEnvOk [1] "pw-0").paid [1] "pw-0" 0 = true ∧
    hasAccess (payFromBalance sampleState sampleEnvOk [1] "pw-0").paid [1] "pw-0" 999 = true ∧
    hasAccess (payFromBalance sampleState sampleEnvOk [1] "pw-0").paid [1] "pw-0" 1000 = false := by
  have h := C5_hasAccess_spec.2 sampleState sampleEnvOk [1] "pw-0" sampleConfig
    (by decide) (by decide) (by decide)
  exact ⟨by rw [h 0]; decide, by rw [h 999]; decide, by rw [h 1000]; decide⟩

/-- C10: every settlement call a run issues has a strictly positive amount —
a destination whose computed split is zero is silently skipped — and the
issued amounts form an initial segment of the positive entries of the split;
the required-balance gate nevertheless counts one `ledgerFee` for every
destination (`requiredBalance` uses the full destination count). -/
theorem C10_zero_amount_skipped (st : RuntimeState) (env : Env) (caller : Principal)
    (pid : String) (config : PaywallConfig)
    (hc : lookupAssoc st.paywallConfigs pid = some config)
    (_hv : validateDestinations config.destinations = true) :
    (∀ c ∈ (payFromBalance st env caller pid).calls, 0 < c.amount) ∧
    ((payFromBalance st env caller pid).calls.map (fun c => c.amount) =
      ((splitNet (config.price_e8s - calculateFee config.price_e8s)
        (config.destinations.map (fun d => d.percentage))).filter
          (fun a => decide (0 < a))).take (payFromBalance st env caller pid).calls.length) ∧
    requiredBalance config =
      config.price_e8s + ledgerFee * (config.destinations.length + 1) ∧
    (∀ c ∈ (verifyPayment st env caller pid).calls, 0 < c.amount) ∧
    ((verifyPayment st env caller pid).calls.map (fun c => c.amount) =
      ((splitNet (config.price_e8s - calculateFee config.price_e8s)
        (config.destinations.map (fun d => d.percentage))).filter
          (fun a => decide (0 < a))).take (verifyPayment st env caller pid).calls.length) := by
  have main : (∀ c ∈ (payFromBalance st env caller pid).calls, 0 < c.amount) ∧
      ((payFromBalance st env caller pid).calls.map (fun c => c.amount) =
        ((splitNet (config.price_e8s - calculateFee config.price_e8s)
          (config.destinations.map (fun d => d.percentage))).filter
            (fun a => decide (0 < a))).take (payFromBalance st env caller pid).calls.length) := by
    rcases payFromBalance_calls_shape st env caller pid with hnil | ⟨c', hc', hcalls⟩
    · rw [hnil]
      constructor
      · intro c hc0
        cases hc0
      · simp
    · rw [hc] at hc'
      injection hc' with hc''
      rw [← hc''] at hcalls
      rw [hcalls]
      unfold splitNet
      rw [List.length_map]
      exact settleLoop_calls (config.price_e8s - calculateFee config.price_e8s)
        config.destinations 0 (config.destinations.length - 1)
        (config.price_e8s - calculateFee config.price_e8s) env.payOutcomes
  refine ⟨main.1, main.2, rfl, ?_, ?_⟩
  · rw [verifyPayment_eq]; exact main.1
  · rw [verifyPayment_eq]; exact main.2

/-- C10 witness: with a valid destination list [0, 100] the zero-percentage
destination is skipped — the issued amounts are exactly [90_000] — while the
required balance still charges three transfer fees. -/
theorem C10_witness :
    (payFromBalance zeroSplitState zeroSplitEnv [1] "pw-0").calls.map (fun c => c.amount) =
      ((splitNet (zeroSplitConfig.price_e8s - calculateFee zeroSplitConfig.price_e8s)
        (zeroSplitConfig.destinations.map (fun d => d.percentage))).filter
          (fun a => decide (0 < a))).take
        (payFromBalance zeroSplitState zeroSplitEnv [1] "pw-0").calls.length :=
  (C10_zero_amount_skipped zeroSplitState zeroSplitEnv [1] "pw-0" zeroSplitConfig
    (by decide) (by decide)).2.1

/-- Putting a fresh key appends the entry. -/
theorem putAssoc_of_not_mem {K V : Type} [DecidableEq K] :
    ∀ (l : List (K × V)) (k : K) (v : V), k ∉ l.map Prod.fst →
      putAssoc l k v = l ++ [(k, v)] := by
  intro l k v h
  induction l with
  | nil => rfl
  | cons kv rest ih =>
    obtain ⟨k', v'⟩ := kv
    simp only [List.map_cons, List.mem_cons, not_or] at h
    obtain ⟨h1, h2⟩ := h
    have h1' : ¬ k' = k := fun hk => h1 hk.symm
    simp only [putAssoc, if_neg h1', List.cons_append]
    rw [ih h2]

/-- Folding `putAssoc` over entries with pairwise-distinct keys appends them
in order (with a per-entry value transform, as `postupgrade` rebuilds the
nested access store). -/
theorem foldl_putAssoc {K V W : Type} [DecidableEq K] (f : K × V → W) :
    ∀ (l : List (K × V)) (acc : List (K × W)),
      (l.map Prod.fst).Nodup →
      (∀ k, k ∈ l.map Prod.fst → k ∉ acc.map Prod.fst) →
      l.foldl (fun a e => putAssoc a e.1 (f e)) acc =
        acc ++ l.map (fun e => (e.1, f e)) := by
  intro l
  induction l with
  | nil => intro acc _ _; simp
  | cons e rest ih =>
    intro acc hnd hdisj
    simp only [List.map_cons, List.nodup_cons] at hnd
    obtain ⟨hhead, htail⟩ := hnd
    simp only [List.foldl_cons]
    rw [putAssoc_of_not_mem acc e.1 (f e) (hdisj e.1 (by simp))]
    rw [ih (acc ++ [(e.1, f e)]) htail ?_]
    · simp
    · intro k hk
      simp only [List.map_append, List.mem_append, not_or]
      constructor
      · exact hdisj k (by simp [hk])
      · intro hk2
        simp at hk2
        rw [hk2] at hk
        exact hhead hk

/-- Rebuilding a map from entries with pairwise-distinct keys reproduces the
entry list exactly. -/
theorem fromEntries_eq_self {K V : Type} [DecidableEq K] (l : List (K × V))
    (h : (l.map Prod.fst).Nodup) : fromEntries l = l := by
  unfold fromEntries
  have hf := foldl_putAssoc (fun e => e.2) l [] h (by simp)
  rw [hf]
  simp

/-- C9: `postupgrade` after `preupgrade` restores the actor state exactly —
same configs, access records, ownership index, id counter and salt, with no
entry lost or duplicated — given the hash-map invariant that keys are
pairwise distinct (outer maps and each per-user expiry map). -/
theorem C9_upgrade_roundtrip (rt : RuntimeState)
    (h1 : (rt.paywallConfigs.map Prod.fst).Nodup)
    (h2 : (rt.paidStatuses.map Prod.fst).Nodup)
    (h3 : (rt.ownedPaywalls.map Prod.fst).Nodup)
    (h4 : ∀ e ∈ rt.paidStatuses, (e.2.map Prod.fst).Nodup) :
    postupgrade (preupgrade rt) = rt := by
  obtain ⟨cfgs, paid, owned, nid, salt⟩ := rt
  simp only [preupgrade] at h1 h2 h3 h4 ⊢
  have hc : fromEntries cfgs = cfgs := fromEntries_eq_self _ h1
  have ho : fromEntries owned = owned := fromEntries_eq_self _ h3
  have hp : paid.foldl (fun acc e => putAssoc acc e.1 (fromEntries e.2)) [] = paid := by
    have hf := foldl_putAssoc (fun e => fromEntries e.2) paid [] h2 (by simp)
    refine hf.trans ?_
    simp only [List.nil_append]
    refine Eq.trans ?_ (List.map_id paid)
    apply List.map_congr_left
    intro e he
    simp [fromEntries_eq_self _ (h4 e he)]
  simp only [postupgrade]
  rw [hc, ho, hp]

/-- C9 witness: a concrete populated state (one config, one nested access
record, one ownership entry, counter and salt) survives the round trip
byte-for-byte. -/
theorem C9_witness :
    postupgrade (preupgrade
      ⟨[("pw-0", sampleConfig)], [([1], [("pw-0", 5)])], [([1], ["pw-0"])], 1, [9]⟩) =
      ⟨[("pw-0", sampleConfig)], [([1], [("pw-0", 5)])], [([1], ["pw-0"])], 1, [9]⟩ :=
  C9_upgrade_roundtrip _ (by decide) (by decide) (by decide) (by decide)

/-- The folding loop computes, at each slot, the sum modulo 256 of the
payload bytes whose running index lands in that slot. -/
theorem foldInto_apply :
    ∀ (l : List Nat) (out : Nat → Nat) (i s : Nat), (∀ t, out t < 256) →
      foldInto out i l s = (out s + slotSumFrom i s l) % 256 := by
  intro l
  induction l with
  | nil =>
    intro out i s hout
    show out s = (out s + 0) % 256
    rw [Nat.add_zero, Nat.mod_eq_of_lt (hout s)]
  | cons b rest ih =>
    intro out i s hout
    have hout' : ∀ t, (if t = i % 32 then (out (i % 32) + b) % 256 else out t) < 256 := by
      intro t
      by_cases ht : t = i % 32
      · rw [if_pos ht]; exact Nat.mod_lt _ (by omega)
      · rw [if_neg ht]; exact hout t
    have step : foldInto out i (b :: rest) s =
        foldInto (fun t => if t = i % 32 then (out (i % 32) + b) % 256 else out t)
          (i + 1) rest s := rfl
    rw [step, ih _ (i + 1) s hout']
    show ((if s = i % 32 then (out (i % 32) + b) % 256 else out s) +
        slotSumFrom (i + 1) s rest) % 256 =
      (out s + ((if i % 32 = s then b else 0) + slotSumFrom (i + 1) s rest)) % 256
    by_cases h : i % 32 = s
    · rw [if_pos h.symm, if_pos h, h, Nat.mod_add_mod, Nat.add_assoc]
    · rw [if_neg (fun hc => h hc.symm), if_neg h, Nat.zero_add]

/-- Slot sums split across list concatenation, shifting the running index. -/
theorem slotSumFrom_append :
    ∀ (xs ys : List Nat) (i s : Nat),
      slotSumFrom i s (xs ++ ys) = slotSumFrom i s xs + slotSumFrom (i + xs.length) s ys := by
  intro xs
  induction xs with
  | nil => intro ys i s; simp [slotSumFrom]
  | cons b rest ih =>
    intro ys i s
    simp only [List.cons_append, slotSumFrom, List.length_cons, List.append_eq]
    rw [ih]
    have harith : i + (rest.length + 1) = i + 1 + rest.length := by omega
    rw [harith]
    omega

/-- A payload segment none of whose positions lands in slot `s` contributes
nothing there. -/
theorem slotSumFrom_zero :
    ∀ (l : List Nat) (i s : Nat), (∀ j, j < l.length → (i + j) % 32 ≠ s) →
      slotSumFrom i s l = 0 := by
  intro l
  induction l with
  | nil => intro i s _; rfl
  | cons b rest ih =>
    intro i s h
    have h0 : ¬ i % 32 = s := by
      have := h 0 (by simp)
      simpa using this
    have hrest : ∀ j, j < rest.length → (i + 1 + j) % 32 ≠ s := by
      intro j hj
      have hh := h (j + 1) (by simp; omega)
      have harith : i + (j + 1) = i + 1 + j := by omega
      rwa [harith] at hh
    simp only [slotSumFrom, if_neg h0, ih (i + 1) s hrest]

/-- A payload segment exactly one of whose positions lands in slot `s`
contributes exactly that byte there. -/
theorem slotSumFrom_single :
    ∀ (l : List Nat) (i s t : Nat), t < l.length → (i + t) % 32 = s →
      (∀ j, j < l.length → j ≠ t → (i + j) % 32 ≠ s) →
      slotSumFrom i s l = l.getD t 0 := by
  intro l
  induction l with
  | nil => intro i s t ht _ _; simp at ht
  | cons b rest ih =>
    intro i s t ht hhit huniq
    cases t with
    | zero =>
      have h0 : i % 32 = s := by simpa using hhit
      have hrest : slotSumFrom (i + 1) s rest = 0 := by
        apply slotSumFrom_zero
        intro j hj
        have hh := huniq (j + 1) (by simp; omega) (by omega)
        have harith : i + (j + 1) = i + 1 + j := by omega
        rwa [harith] at hh
      simp [slotSumFrom, h0, hrest]
    | succ t' =>
      have h0 : ¬ i % 32 = s := by
        have := huniq 0 (by simp) (by omega)
        simpa using this
      have hr := ih (i + 1) s t' (by simp at ht; omega)
        (by have harith : i + 1 + t' = i + (t' + 1) := by omega
            rw [harith]; exact hhit)
        (by intro j hj hne2
            have hh := huniq (j + 1) (by simp; omega) (by omega)
            have harith : i + (j + 1) = i + 1 + j := by omega
            rwa [harith] at hh)
      simp [slotSumFrom, h0, hr]

/-- Purpose separation for the additive fold: a purpose of the shape
`"pw-"` followed by one to five decimal-digit bytes can never collide with
the purpose `"wallet"` for the same salt and the same principal (principals
encode to at most 29 bytes).  The distinguishing slot is the one holding the
purpose byte at offset `max 3 (number of digits)`: there the paywall payload
contributes a digit byte (48–57) while the wallet payload contributes a
letter of `"wallet"` (101–116), and neither the salt (identical on both
sides) nor the principal bytes can reach that slot. -/
theorem derive_purpose_separation (salt user ds : List Nat)
    (huser : user.length ≤ 29) (hne : ds ≠ []) (hlen : ds.length ≤ 5)
    (hdig : ∀ b ∈ ds, 48 ≤ b ∧ b ≤ 57) :
    deriveSubaccount salt ([112, 119, 45] ++ ds) user ≠ deriveUserSubaccount salt user := by
  intro heq
  have hd1 : 1 ≤ ds.length := List.length_pos.mpr hne
  obtain ⟨SI, hSI⟩ : ∃ SI, SI = max 3 ds.length := ⟨_, rfl⟩
  have hs3 : 3 ≤ SI := by omega
  have hs5 : SI ≤ 5 := by omega
  have hSId : SI < 3 + ds.length := by omega
  have hSdle : ds.length ≤ SI := by omega
  have hmem : (salt.length + SI) % 32 ∈ List.range 32 :=
    List.mem_range.mpr (Nat.mod_lt _ (by omega))
  unfold deriveSubaccount deriveUserSubaccount deriveBytes at heq
  rw [walletBytes] at heq
  have hpt := List.map_eq_map_iff.mp heq _ hmem
  rw [foldInto_apply _ _ _ _ (fun t => by omega),
    foldInto_apply _ _ _ _ (fun t => by omega)] at hpt
  simp only [Nat.zero_add] at hpt
  rw [slotSumFrom_append salt (([112, 119, 45] ++ ds) ++ user) 0 ((salt.length + SI) % 32),
    slotSumFrom_append ([112, 119, 45] ++ ds) user _ ((salt.length + SI) % 32),
    slotSumFrom_append [112, 119, 45] ds _ ((salt.length + SI) % 32),
    slotSumFrom_append salt ([119, 97, 108, 108, 101, 116] ++ user) 0 ((salt.length + SI) % 32),
    slotSumFrom_append [119, 97, 108, 108, 101, 116] user _ ((salt.length + SI) % 32)]
    at hpt
  simp only [Nat.zero_add, List.length_append, List.length_cons, List.length_nil] at hpt
  have hT3 : slotSumFrom salt.length ((salt.length + SI) % 32) [112, 119, 45] = 0 := by
    apply slotSumFrom_zero
    intro j hj
    simp only [List.length_cons, List.length_nil] at hj
    omega
  have hSD : slotSumFrom (salt.length + 3) ((salt.length + SI) % 32) ds =
      ds.getD (SI - 3) 0 := by
    apply slotSumFrom_single ds (salt.length + 3) _ (SI - 3) (by omega)
    · have harith : salt.length + 3 + (SI - 3) = salt.length + SI := by omega
      rw [harith]
    · intro j hj hne2
      omega
  have hU1 : slotSumFrom (salt.length + (3 + ds.length)) ((salt.length + SI) % 32) user = 0 := by
    apply slotSumFrom_zero
    intro j hj
    omega
  have hTW : slotSumFrom salt.length ((salt.length + SI) % 32) [119, 97, 108, 108, 101, 116] =
      [119, 97, 108, 108, 101, 116].getD SI 0 := by
    apply slotSumFrom_single [119, 97, 108, 108, 101, 116] salt.length _ SI
      (by simp only [List.length_cons, List.length_nil]; omega)
    · rfl
    · intro j hj hne2
      simp only [List.length_cons, List.length_nil] at hj
      omega
  have hU2 : slotSumFrom (salt.length + 6) ((salt.length + SI) % 32) user = 0 := by
    apply slotSumFrom_zero
    intro j hj
    omega
  rw [hT3, hSD, hU1, hTW, hU2] at hpt
  simp only [Nat.add_zero, Nat.zero_add] at hpt
  have htlt : SI - 3 < ds.length := by omega
  have hD : 48 ≤ ds.getD (SI - 3) 0 ∧ ds.getD (SI - 3) 0 ≤ 57 := by
    rw [List.getD_eq_getElem ds 0 htlt]
    exact hdig _ (List.getElem_mem htlt)
  have hW : 101 ≤ [119, 97, 108, 108, 101, 116].getD SI 0 ∧
      [119, 97, 108, 108, 101, 116].getD SI 0 ≤ 116 := by
    have hcases : SI = 3 ∨ SI = 4 ∨ SI = 5 := by omega
    rcases hcases with h | h | h <;> rw [h] <;> exact ⟨by decide, by decide⟩
  have hDW : ds.getD (SI - 3) 0 % 256 = [119, 97, 108, 108, 101, 116].getD SI 0 % 256 :=
    Nat.ModEq.add_left_cancel' _ hpt
  rw [Nat.mod_eq_of_lt (by omega), Nat.mod_eq_of_lt (by omega)] at hDW
  omega

/-- Decimal digit lists are never empty. -/
theorem decDigits_ne_nil (n : Nat) : decDigits n ≠ [] := by
  unfold decDigits
  dsimp only
  split <;> simp

/-- Every decimal digit is below 10. -/
theorem decDigits_lt (n : Nat) : ∀ b ∈ decDigits n, b < 10 := by
  induction n using Nat.strong_induction_on with
  | _ n ih =>
    unfold decDigits
    dsimp only
    split
    · next h => intro b hb; simp at hb; omega
    · next h =>
      intro b hb
      simp only [List.mem_append, List.mem_singleton] at hb
      rcases hb with hb | hb
      · exact ih (n / 10) (Nat.div_lt_self (by omega) (by omega)) b hb
      · have hm : n % 10 < 10 := Nat.mod_lt n (by omega)
        omega

/-- A number below `10 ^ k` has at most `k` decimal digits. -/
theorem decDigits_length_le : ∀ (k n : Nat), 1 ≤ k → n < 10 ^ k →
    (decDigits n).length ≤ k := by
  intro k
  induction k with
  | zero => intro n h _; omega
  | succ k ih =>
    intro n _ hn
    unfold decDigits
    dsimp only
    split
    · simp
    · next h =>
      have hk1 : 1 ≤ k := by
        rcases Nat.eq_zero_or_pos k with hk | hk
        · subst hk; simp at hn; omega
        · exact hk
      have hdiv : n / 10 < 10 ^ k := by
        rw [pow_succ, Nat.mul_comm] at hn
        exact Nat.div_lt_of_lt_mul hn
      have hlen := ih (n / 10) hk1 hdiv
      simp only [List.length_append, List.length_cons, List.length_nil]
      omega

/-- C8 counterexample to the unrestricted claim: `deriveSubaccount` accepts
an arbitrary purpose string, and with the purpose `"wallet"` it reproduces
`deriveUserSubaccount` exactly, here at a concrete 32-byte salt and the
anonymous principal `[4]`. -/
theorem C8_counterexample :
    deriveSubaccount (List.range 32) walletBytes [4] =
      deriveUserSubaccount (List.range 32) [4] := rfl

/-- C8 (amended): for every salt, every identity encoding to at most 29
bytes, and every paywall id the registry actually generates with index below
100_000 (`"pw-" # Nat.toText n`), the per-paywall deposit subaccount differs
from the per-user wallet subaccount. -/
theorem C8_purpose_separation (salt user : List Nat) (n : Nat)
    (huser : user.length ≤ 29) (hn : n < 100000) :
    deriveSubaccount salt (pwIdBytes n) user ≠ deriveUserSubaccount salt user := by
  unfold pwIdBytes
  apply derive_purpose_separation salt user _ huser
  · simp [decDigits_ne_nil n]
  · rw [List.length_map]
    have h5 : (10 : Nat) ^ 5 = 100000 := by norm_num
    exact decDigits_length_le 5 n (by omega) (by omega)
  · intro b hb
    simp only [List.mem_map] at hb
    obtain ⟨a, ha, hab⟩ := hb
    have hal := decDigits_lt n a ha
    omega

/-- C8 witness: the generated id "pw-0" and the wallet purpose give
different subaccounts for the anonymous principal `[4]` and an empty salt. -/
theorem C8_witness :
    deriveSubaccount [] (pwIdBytes 0) [4] ≠ deriveUserSubaccount [] [4] :=
  C8_purpose_separation [] [4] 0 (by decide) (by decide)

end Paywall
